import Mathlib

/-!
Verification of the wrapper-generation pipeline of the Coral CLI
(`coral_cli/coralizer/github_coralizer.py` and
`coral_cli/coralizer/mcp_coralizer.py`), as a shallow embedding in Lean.

Python strings are modelled as Lean `String` / `List Char`; filesystem
state is modelled explicitly (directory trees, file listings); the
external processes (git, docker, the LLM agent) are modelled as opaque
inputs.  Machine behaviour that matters (character budgets, substring
tests, regex extraction, retry loops) is translated operation by
operation from the source.
-/

/-- Python's whitespace test (`str.isspace`, and `\s` in `re` patterns over
`str`): the ASCII whitespace/control characters plus the Unicode space
characters. -/
def pyWS (c : Char) : Bool :=
  [9, 10, 11, 12, 13, 28, 29, 30, 31, 32, 133, 160, 5760,
   8192, 8193, 8194, 8195, 8196, 8197, 8198, 8199, 8200, 8201, 8202,
   8232, 8233, 8239, 8287, 12288].contains c.toNat

/-- `listIsPrefix needle hay`: `hay` starts with `needle` (character-exact). -/
def listIsPrefix : List Char → List Char → Bool
  | [], _ => true
  | _ :: _, [] => false
  | p :: ps, c :: cs => p == c && listIsPrefix ps cs

/-- Python's `needle in hay` substring test, over character lists. -/
def hasSubstring (needle : List Char) : List Char → Bool
  | [] => needle.isEmpty
  | c :: cs => listIsPrefix needle (c :: cs) || hasSubstring needle cs

/-- Python's `needle in hay` substring test, over strings. -/
def strContains (hay needle : String) : Bool :=
  hasSubstring needle.data hay.data

/-- Python's `str.lower()` (ASCII case folding, which is all the call sites
compare). -/
def pyLower (s : String) : String :=
  String.mk (s.data.map Char.toLower)

/-- `MAX_CODE_CONTEXT_CHARS` (github_coralizer.py line 29). -/
def MAX_CODE_CONTEXT_CHARS : Nat := 15000

/-- `MAX_TREE_CHARS` (github_coralizer.py line 30). -/
def MAX_TREE_CHARS : Nat := 2000

/-! ## Build-failure classification (`build_and_run`)

`GitHubCoralizer.build_and_run` (github_coralizer.py lines 530-542) and
`MCPCoralizer.build_and_run` (mcp_coralizer.py lines 232-244) contain the
same classification of a failed `docker build`:

    if "permission denied" in build_process.stderr.lower()
       and "docker.sock" in build_process.stderr.lower():
        <print the docker-group remediation message>
    else:
        <print the generic error and the raw stderr>
-/

/-- What the orchestrator prints for a failed build: either the fixed
daemon-socket permediation text, or the raw stderr dump. -/
inductive BuildFailureMsg where
  | remediation : BuildFailureMsg
  | raw : String → BuildFailureMsg
deriving DecidableEq

/-- The classification branch of `build_and_run` (both coralizers), applied to
the captured stderr of a failed `docker build`. -/
def classifyBuildFailure (stderr : String) : BuildFailureMsg :=
  if strContains (pyLower stderr) "permission denied"
      && strContains (pyLower stderr) "docker.sock" then
    .remediation
  else
    .raw stderr

/-! ## Dockerfile synthesis (`GitHubCoralizer.generate_dockerfile`)

Lines 403-477 of github_coralizer.py.  The repository directory is only
inspected through seven `exists()` / `is_dir()` tests and `repo_path.name`,
which is exactly the state modelled by `RepoManifests`. -/

/-- The dependency-related facts `generate_dockerfile` reads off the cloned
repository directory. -/
structure RepoManifests where
  hasReqTxt : Bool
  hasSetupPy : Bool
  hasPyproject : Bool
  hasSetupCfg : Bool
  hasManifestIn : Bool
  hasRepoNameDir : Bool
  hasSrcDir : Bool
  repoName : String

/-- The always-appended agent-framework install step
(`github_coralizer.py` line 448). -/
def camelStep : String :=
  "RUN pip install --no-cache-dir 'camel-ai[web-tools]>=0.2.0,<0.3.0'"

/-- The placeholder emitted when no dependency manifest is found
(`github_coralizer.py` line 445). -/
def noDepsComment : String :=
  "# Add necessary pip installs here if needed"

/-- Install steps contributed by `requirements.txt` (lines 416-419). -/
def reqSteps (m : RepoManifests) : List String :=
  if m.hasReqTxt = true then
    ["COPY requirements.txt .",
     "RUN pip install --no-cache-dir -r requirements.txt"]
  else []

/-- Install steps contributed by `setup.py` (lines 420-433). -/
def setupSteps (m : RepoManifests) : List String :=
  if m.hasSetupPy = true then
    ["COPY setup.py ."]
    ++ (if m.hasSetupCfg = true then ["COPY setup.cfg ."] else [])
    ++ (if m.hasManifestIn = true then ["COPY MANIFEST.in ."] else [])
    ++ (if m.hasRepoNameDir = true then
          ["COPY " ++ m.repoName ++ " ./" ++ m.repoName]
        else if m.hasSrcDir = true then ["COPY src ./src"] else [])
    ++ ["RUN pip install --no-cache-dir ."]
  else []

/-- Install steps contributed by `pyproject.toml` (lines 434-441). -/
def pyprojectSteps (m : RepoManifests) : List String :=
  if m.hasPyproject = true then
    ["COPY pyproject.toml .",
     "COPY poetry.lock .",
     "RUN pip install --no-cache-dir poetry",
     "RUN poetry config virtualenvs.create false && poetry install --no-dev --no-interaction --no-ansi"]
  else []

/-- The full `install_commands` list of `generate_dockerfile`: the three
independent manifest checks, the no-manifest placeholder, then the
unconditional agent-framework step. -/
def installCommands (m : RepoManifests) : List String :=
  let base := reqSteps m ++ setupSteps m ++ pyprojectSteps m
  (if base = [] then [noDepsComment] else base) ++ [camelStep]

/-- Python's `"\n".join(...)`. -/
def joinNl : List String → String
  | [] => ""
  | [x] => x
  | x :: y :: xs => x ++ "\n" ++ joinNl (y :: xs)

/-- The fixed Dockerfile text before the install commands (lines 453-464). -/
def dockerHead : String :=
  "FROM python:3.10-slim\n\nWORKDIR /app\n\n# Copy the entire cloned repository content first\n# This allows subsequent COPY/RUN commands to work relative to /app\nCOPY . /app/\n\n# Copy the generated Coral wrapper into the root of /app\nCOPY coral_wrapper.py /app/\n\n# Install dependencies (commands determined above)\n"

/-- The fixed Dockerfile text after the install commands (lines 466-475). -/
def dockerTail : String :=
  "\n\n# Set environment variables (API key passed during run)\n# ENV OPENAI_API_KEY=...\n# ENV CORAL_SERVER_URL=...\n# ENV CORAL_AGENT_ID=...\n\n# Run the Coral wrapper (ensure it's executable if needed: RUN chmod +x /app/coral_wrapper.py)\n# Use python -u for unbuffered output\nCMD [\"python\", \"-u\", \"/app/coral_wrapper.py\"]\n"

/-- `GitHubCoralizer.generate_dockerfile`, as a function of the dependency
facts it reads from the repository directory. -/
def generateDockerfile (m : RepoManifests) : String :=
  dockerHead ++ joinNl (installCommands m) ++ dockerTail

/-! ## Entry-point selection (spec section 4.3)

Modelled from the spec: the Entry-Point Selector that parses the
generation agent's ranked-list response is not part of the source tree
(`github_coralizer.py` only carries the fixed candidate list
`priority_files`, line 245); the spec describes the parse chain
"strict structured-list parsing → lenient bracket-delimited split →
fixed default set".  The definitions below follow those words. -/

/-- Python's leading-whitespace skip used by the modelled parsers. -/
def skipWS (l : List Char) : List Char := l.dropWhile pyWS

/-- Python's `str.strip()` over character lists. -/
def stripChars (l : List Char) : List Char :=
  ((l.dropWhile pyWS).reverse.dropWhile pyWS).reverse

/-- Modelled from the spec: scan a double-quoted string atom, returning its
contents and the input past the closing quote. -/
def scanQuoted : List Char → Option (List Char × List Char)
  | [] => none
  | c :: cs =>
    if c == '"' then some ([], cs)
    else
      match scanQuoted cs with
      | some (acc, rest) => some (c :: acc, rest)
      | none => none

/-- Modelled from the spec: after one parsed list item, strictly parse
`, "item"` groups until the closing bracket; nothing but whitespace may
follow the list. -/
def strictItemsRest (fuel : Nat) (l : List Char) : Option (List String) :=
  match fuel with
  | 0 => none
  | fuel + 1 =>
    match skipWS l with
    | ']' :: r => if (skipWS r).isEmpty then some [] else none
    | ',' :: r =>
      match skipWS r with
      | '"' :: r2 =>
        match scanQuoted r2 with
        | some (item, r3) => (strictItemsRest fuel r3).map (String.mk item :: ·)
        | none => none
      | _ => none
    | _ => none

/-- Modelled from the spec: "strict structured-list parsing of the response"
— the whole response must be a bracketed list of quoted strings. -/
def strictParse (s : String) : Option (List String) :=
  match skipWS s.data with
  | '[' :: r =>
    match skipWS r with
    | ']' :: r2 => if (skipWS r2).isEmpty then some [] else none
    | '"' :: r2 =>
      match scanQuoted r2 with
      | some (item, r3) =>
        match strictItemsRest (r3.length + 1) r3 with
        | some items => some (String.mk item :: items)
        | none => none
      | none => none
    | _ => none
  | _ => none

/-- Is the character one of the two Python quote characters? -/
def isQuoteCh (c : Char) : Bool := ("\"'".data).contains c

/-- Drop one leading quote character, if present. -/
def dropQuote : List Char → List Char
  | [] => []
  | c :: r => if isQuoteCh c then r else c :: r

/-- Modelled from the spec: clean one lenient-split entry — strip whitespace,
then one layer of quotes. -/
def cleanItem (l : List Char) : List Char :=
  (dropQuote ((dropQuote (stripChars l)).reverse)).reverse

/-- Modelled from the spec: the "lenient bracket-delimited string split" —
take the text between the first `[` and the following `]`, split on commas,
clean each entry, and succeed only when at least one non-empty entry
remains. -/
def lenientParse (s : String) : Option (List String) :=
  match s.data.dropWhile (fun c => !(c == '[')) with
  | '[' :: r =>
    if (r.dropWhile (fun c => !(c == ']'))).isEmpty then none
    else
      let interior := r.takeWhile (fun c => !(c == ']'))
      let items := ((interior.splitOn ',').map cleanItem).filter (fun i => !i.isEmpty)
      if items.isEmpty then none else some (items.map String.mk)
  | _ => none

/-- The fixed default candidate set the spec names for the Selector
(the first four entries of `priority_files`, github_coralizer.py
line 245). -/
def defaultEntryPoints : List String := ["main.py", "app.py", "agent.py", "run.py"]

/-- Modelled from the spec: the Entry-Point Selector's response handling —
strict parse, then lenient parse, then the fixed default set.  A total
function: no agent response makes it raise. -/
def selectEntryPoints (response : String) : List String :=
  match strictParse response with
  | some l => l
  | none =>
    match lenientParse response with
    | some l => l
    | none => defaultEntryPoints

/-! ## Context assembly (`GitHubCoralizer._get_code_context`)

Lines 237-291 of github_coralizer.py.  The repository is modelled as the
list of its files: each with its path relative to the repository root, its
text content, and whether `read_text` succeeds on it.  `blocks` is ghost
instrumentation recording each (header name, content) pair the function
embeds, used to state that files are embedded whole or not at all. -/

/-- One file of the cloned repository, as `_get_code_context` can observe
it. -/
structure PyFile where
  path : String
  content : String
  readable : Bool

/-- The cloned repository, as the list of its files (in `rglob` order). -/
structure RepoFiles where
  files : List PyFile

/-- The running state of `_get_code_context`: the accumulated context, the
character count, the `files_read` counter, the `processed_files` set, and
the ghost list of embedded (header, content) blocks. -/
structure CtxState where
  codeContext : String
  totalChars : Nat
  filesRead : Nat
  processed : List String
  blocks : List (String × String)

/-- The file-boundary header (`github_coralizer.py` line 254). -/
def ctxHeader (name : String) : String := "\n--- File: " ++ name ++ " ---\n"

/-- Resolve `repo_path / name` against the repository model: the file whose
root-relative path is exactly `name`, when it exists. -/
def findFile (repo : RepoFiles) (name : String) : Option PyFile :=
  repo.files.find? (fun f => f.path == name)

/-- The inner `add_content` closure (lines 249-267): skip missing, already
processed, or unreadable files (returning `true` = keep going); embed the
file whole when header plus content fits the budget; otherwise leave the
state unchanged and return `false`. -/
def addContent (st : CtxState) (fileOpt : Option PyFile) (headerName : String) :
    CtxState × Bool :=
  match fileOpt with
  | none => (st, true)
  | some f =>
    if st.processed.contains f.path then (st, true)
    else if f.readable = false then (st, true)
    else
      let h := ctxHeader headerName
      if st.totalChars + f.content.length + h.length ≤ MAX_CODE_CONTEXT_CHARS then
        ({ codeContext := st.codeContext ++ h ++ f.content,
           totalChars := st.totalChars + f.content.length + h.length,
           filesRead := st.filesRead + 1,
           processed := f.path :: st.processed,
           blocks := st.blocks ++ [(headerName, f.content)] }, true)
      else (st, false)

/-- The `priority_files` list (line 245). -/
def priorityNames : List String :=
  ["main.py", "app.py", "agent.py", "run.py",
   "requirements.txt", "pyproject.toml", "setup.py"]

/-- The priority-file pass (lines 269-273): stop at the first file that hits
the budget. -/
def priorityLoop (repo : RepoFiles) : CtxState → List String → CtxState
  | st, [] => st
  | st, n :: ns =>
    match addContent st (findFile repo n) n with
    | (st', true) => priorityLoop repo st' ns
    | (st', false) => st'

/-- `'.git' in filepath.parts` (line 279). -/
def isGitPath (p : String) : Bool := (p.splitOn "/").contains ".git"

/-- The recursive `*.py` pass (lines 276-285): skip `.git` paths and already
processed files; stop at the first file that hits the budget. -/
def rglobLoop (repo : RepoFiles) : CtxState → List PyFile → CtxState
  | st, [] => st
  | st, f :: fs =>
    if isGitPath f.path then rglobLoop repo st fs
    else if st.processed.contains f.path then rglobLoop repo st fs
    else
      match addContent st (some f) f.path with
      | (st', true) => rglobLoop repo st' fs
      | (st', false) => st'

/-- The initial state of `_get_code_context`. -/
def initCtxState : CtxState := ⟨"", 0, 0, [], []⟩

/-- `GitHubCoralizer._get_code_context`: the priority pass, then — while
the budget is not exhausted — the recursive `*.py` pass. -/
def getCodeContext (repo : RepoFiles) : CtxState :=
  let st1 := priorityLoop repo initCtxState priorityNames
  if st1.totalChars < MAX_CODE_CONTEXT_CHARS then
    rglobLoop repo st1 (repo.files.filter (fun f => f.path.endsWith ".py"))
  else st1

/-! ## Cleanup (`GitHubCoralizer.cleanup`)

Lines 579-605 of github_coralizer.py.  The filesystem is modelled by the
outcome of each successive `shutil.rmtree` call: success, a
`PermissionError`, another `OSError` carrying "Access is denied", another
`OSError`, or a non-`OSError` exception. -/

/-- The possible outcomes of one `shutil.rmtree` call. -/
inductive RmOutcome where
  | ok
  | permErr
  | accessDeniedOS
  | otherOS
  | otherExc
deriving DecidableEq

/-- The predicate of the inner `except OSError` handler (line 594):
`isinstance(e, PermissionError) or "Access is denied" in str(e)`. -/
def isRetryable : RmOutcome → Bool
  | .permErr => true
  | .accessDeniedOS => true
  | _ => false

/-- The messages `cleanup` can print, as abstract events. -/
inductive CleanupEvent where
  | cleanedMsg
  | retryWarning
  | exhaustedWarning
  | outerWarning
deriving DecidableEq

/-- The observable result of one `cleanup()` call. -/
structure CleanupResult where
  events : List CleanupEvent
  attempts : Nat
  sleeps : List Nat
  removed : Bool
  tempDirAfter : Option String
  propagated : Bool

/-- The running state of the retry loop: messages printed, `rmtree` calls
made, `time.sleep` calls made, whether deletion succeeded, and whether a
non-retryable exception escaped the loop (to be caught by the outer
`except Exception`). -/
structure CleanupLoopState where
  events : List CleanupEvent
  attempts : Nat
  sleeps : List Nat
  removed : Bool
  raised : Bool

/-- The `while retries > 0` loop (lines 586-603): `outcomes k` is the result
of the `(k+1)`-th `rmtree` call.  On a retryable error, `retries` is
decremented; when it reaches zero the exhausted warning is printed and the
loop ends, otherwise the loop sleeps `delay = 1` and tries again.  Any
other error sets `raised` (the inner `raise e`, and non-`OSError`
exceptions the inner handler does not catch). -/
def cleanupLoop (outcomes : Nat → RmOutcome) :
    (retries : Nat) → (idx : Nat) → CleanupLoopState → CleanupLoopState
  | 0, _, s => s
  | r + 1, idx, s =>
    match outcomes idx with
    | .ok =>
      { s with attempts := s.attempts + 1, removed := true,
               events := s.events ++ [.cleanedMsg] }
    | .permErr =>
      if r = 0 then
        { s with attempts := s.attempts + 1,
                 events := s.events ++ [.exhaustedWarning] }
      else
        cleanupLoop outcomes r (idx + 1)
          { s with attempts := s.attempts + 1, sleeps := s.sleeps ++ [1],
                   events := s.events ++ [.retryWarning] }
    | .accessDeniedOS =>
      if r = 0 then
        { s with attempts := s.attempts + 1,
                 events := s.events ++ [.exhaustedWarning] }
      else
        cleanupLoop outcomes r (idx + 1)
          { s with attempts := s.attempts + 1, sleeps := s.sleeps ++ [1],
                   events := s.events ++ [.retryWarning] }
    | .otherOS => { s with attempts := s.attempts + 1, raised := true }
    | .otherExc => { s with attempts := s.attempts + 1, raised := true }

/-- `GitHubCoralizer.cleanup`: guard on `self.temp_dir` and
`Path(...).exists()`, run the retry loop with `retries = 3`, and catch
anything that escaped the loop in the outer `except Exception` (so the
caller never sees an exception: `propagated` is `false` on every path). -/
def cleanup (tempDir : Option String) (dirExistsOnDisk : Bool)
    (outcomes : Nat → RmOutcome) : CleanupResult :=
  match tempDir with
  | none => ⟨[], 0, [], false, none, false⟩
  | some d =>
    if dirExistsOnDisk = false then ⟨[], 0, [], false, some d, false⟩
    else
      let s := cleanupLoop outcomes 3 0 ⟨[], 0, [], false, false⟩
      if s.raised then
        ⟨s.events ++ [.outerWarning], s.attempts, s.sleeps, s.removed, some d, false⟩
      else
        ⟨s.events, s.attempts, s.sleeps, s.removed,
         if s.removed then none else some d, false⟩

/-! ## Structure scanning (`GitHubCoralizer._get_file_tree`)

Lines 209-234 of github_coralizer.py.  The cloned directory is modelled as
a tree: each directory has a name, a list of file names, and a forest of
subdirectories, in `os.walk` order.  `os.walk` is top-down, so pruning
`.git` from `dirs` while visiting a directory prevents descending into
it. -/

mutual

/-- A directory: its base name, its files, and its subdirectories. -/
inductive FsTree where
  | node : (dirName : String) → (files : List String) → (subdirs : FsForest) → FsTree

/-- A list of subdirectories (mutual with `FsTree`). -/
inductive FsForest where
  | nil : FsForest
  | cons : FsTree → FsForest → FsForest

end

/-- The base name of a directory. -/
def FsTree.name : FsTree → String
  | .node n _ _ => n

/-- The depth-proportional indentation (`' ' * 4 * level`). -/
def indentStr (level : Nat) : String := String.mk (List.replicate (4 * level) ' ')

/-- The inner `for f in files` loop (lines 223-231): append each file line,
and the moment the accumulated text is longer than `MAX_TREE_CHARS`,
append the `...` marker line and return with the truncation flag set. -/
def filesLoop (subLevel : Nat) (acc : String) : List String → String × Bool
  | [] => (acc, false)
  | f :: fs =>
    let acc' := acc ++ indentStr subLevel ++ f ++ "\n"
    if MAX_TREE_CHARS < acc'.length then
      (acc' ++ indentStr subLevel ++ "...\n", true)
    else filesLoop subLevel acc' fs

mutual

/-- Visit one directory of the `os.walk` (lines 214-231): append the
directory line (never length-checked), then its file lines, then recurse
into its subdirectories with `.git` pruned; a truncation inside any file
loop aborts the whole walk. -/
def walkDir (level : Nat) (acc : String) : FsTree → String × Bool
  | .node nm files subs =>
    let acc1 := acc ++ indentStr level ++ nm ++ "/\n"
    match filesLoop (level + 1) acc1 files with
    | (acc2, true) => (acc2, true)
    | (acc2, false) => walkForest level acc2 false subs

/-- Visit the subdirectories in order, stopping on truncation.  The
`gitRemoved` flag implements `if '.git' in dirs: dirs.remove('.git')`
(lines 216-217): the first subdirectory named `.git` is skipped, later
ones are walked. -/
def walkForest (level : Nat) (acc : String) : (gitRemoved : Bool) → FsForest → String × Bool
  | _, .nil => (acc, false)
  | gitRemoved, .cons t ts =>
    if gitRemoved = false && t.name == ".git" then walkForest level acc true ts
    else
      match walkDir (level + 1) acc t with
      | (acc', true) => (acc', true)
      | (acc', false) => walkForest level acc' gitRemoved ts

end

/-- `GitHubCoralizer._get_file_tree`, with the truncation flag kept as
ghost output. -/
def getFileTreeFull (t : FsTree) : String × Bool := walkDir 0 "" t

/-- `GitHubCoralizer._get_file_tree`: the Structure Summary itself. -/
def getFileTree (t : FsTree) : String := (getFileTreeFull t).1

/-! ## Code-block extraction (`GitHubCoralizer._parse_generated_code`)

Lines 293-310 of github_coralizer.py:

    match = re.search(r"```python\s*([\s\S]+?)\s*```", response_content,
                      re.IGNORECASE)

The regex engine's behaviour on this one pattern is embedded exactly:
leftmost match wins; at a match position the literal is compared
case-insensitively, then the first `\s*` is greedy (longest first, then
backtracking shorter), the group `[\s\S]+?` is lazy (shortest first), and
the final `\s*` before the closing literal is greedy — but since no
whitespace character is a backtick, the final `\s*``` ` can only succeed
at the end of the maximal whitespace run, with no backtracking. -/

/-- One character of `re.IGNORECASE` comparison. -/
def lcEq (a b : Char) : Bool := a.toLower == b.toLower

/-- Case-insensitive prefix test (the literal part of the pattern). -/
def ciIsPrefix : List Char → List Char → Bool
  | [], _ => true
  | _ :: _, [] => false
  | p :: ps, c :: cs => lcEq p c && ciIsPrefix ps cs

/-- The opening literal of the pattern. -/
def fenceOpenChars : List Char := "```python".data

/-- The closing literal of the pattern. -/
def fenceCloseChars : List Char := "```".data

/-- Match `\s*``` ` at the start of `l`: consume the whitespace run, then
require the closing literal. -/
def wsThenClose (l : List Char) : Bool :=
  listIsPrefix fenceCloseChars (l.dropWhile pyWS)

/-- The lazy group `([\s\S]+?)` followed by `\s*``` `: the shortest
non-empty prefix of `l` whose remainder matches `\s*``` `. -/
def lazyGroup : List Char → Option (List Char)
  | [] => none
  | c :: cs =>
    if wsThenClose cs then some [c]
    else
      match lazyGroup cs with
      | some g => some (c :: g)
      | none => none

/-- The greedy first `\s*`: try consuming `w` whitespace characters, then
backtrack to shorter runs. -/
def tryOpenWs : Nat → List Char → Option (List Char)
  | 0, r => lazyGroup r
  | w + 1, r =>
    match lazyGroup (r.drop (w + 1)) with
    | some g => some g
    | none => tryOpenWs w r

/-- Match `\s*([\s\S]+?)\s*``` ` at the start of `r`, returning the group. -/
def tailMatch (r : List Char) : Option (List Char) :=
  tryOpenWs (r.takeWhile pyWS).length r

/-- Match the whole pattern at the start of `l`, returning the group. -/
def matchFenceAt (l : List Char) : Option (List Char) :=
  if ciIsPrefix fenceOpenChars l then tailMatch (l.drop fenceOpenChars.length)
  else none

/-- `re.search`: the match at the leftmost position where one exists. -/
def reSearchFence : List Char → Option (List Char)
  | [] => none
  | c :: cs =>
    match matchFenceAt (c :: cs) with
    | some g => some g
    | none => reSearchFence cs

/-- Python's `str.strip()`. -/
def pyStrip (s : String) : String := String.mk (stripChars s.data)

/-- `GitHubCoralizer._parse_generated_code`: the extracted code (`none` on
failure) together with the diagnostic lines the function prints.  Fence
branch: the trimmed group.  Fallback branch (both structural markers
present): the trimmed raw response, with a warning.  Failure branch:
`None`, with the error banner and the full raw response. -/
def parseGeneratedCode (response : String) : Option String × List String :=
  match reSearchFence response.data with
  | some g => (some (pyStrip (String.mk g)), [])
  | none =>
    if strContains response "import asyncio" && strContains response "MCPToolkit" then
      (some (pyStrip response),
       ["Warning: Could not find ```python block, attempting to use raw response as code."])
    else
      (none,
       ["Error: Could not parse Python code from the agent's response.",
        "--- Agent Response ---",
        response,
        "--- End Agent Response ---"])

/-- The backtick character (spelled by code point). -/
def btChar : Char := Char.ofNat 96

/-- The concatenation of (header, content) blocks, used to state that the
Context Blob is exactly a sequence of whole files. -/
def joinBlocks (bs : List (String × String)) : String :=
  bs.foldl (fun acc b => acc ++ ctxHeader b.1 ++ b.2) ""

/-- The invariant `_get_code_context` maintains: the accumulated context has
exactly `total_chars` characters, stays within the budget, and is the
concatenation of whole (header, content) blocks of distinct repository
files; `processed_files` records exactly the embedded paths. -/
def CtxInv (repo : RepoFiles) (st : CtxState) : Prop :=
  st.codeContext.length = st.totalChars ∧
  st.totalChars ≤ MAX_CODE_CONTEXT_CHARS ∧
  st.codeContext = joinBlocks st.blocks ∧
  st.processed = (st.blocks.map Prod.fst).reverse ∧
  st.processed.Nodup ∧
  (∀ b ∈ st.blocks, ∃ f ∈ repo.files, b = (f.path, f.content))

/-- A repository whose single file name is 2100 characters long: the file
line pushes the Structure Summary far past `MAX_TREE_CHARS` before the
length check runs. -/
def exTreeBigName : String := String.mk (List.replicate 2100 'a')

/-- The one-directory repository holding only the long-named file. -/
def exTree : FsTree := FsTree.node "repo" [exTreeBigName] FsForest.nil

/-! # Theorems -/

/-- `listIsPrefix` agrees with the prefix relation. -/
theorem listIsPrefix_iff (n h : List Char) : listIsPrefix n h = true ↔ n <+: h := by
  induction n generalizing h with
  | nil => simp [listIsPrefix, List.nil_prefix]
  | cons p ps ih =>
    cases h with
    | nil => simp [listIsPrefix, List.prefix_nil]
    | cons c cs => simp [listIsPrefix, List.cons_prefix_cons, ih]

/-- `hasSubstring` agrees with the infix relation: the semantics of Python's
`in` on strings. -/
theorem hasSubstring_iff (n h : List Char) : hasSubstring n h = true ↔ n <:+: h := by
  induction h with
  | nil => simp [hasSubstring, List.isEmpty_iff, List.infix_nil]
  | cons c cs ih =>
    simp [hasSubstring, listIsPrefix_iff, ih, List.infix_cons_iff]

/-- `strContains` agrees with the infix relation on the underlying character
lists. -/
theorem strContains_iff (hay needle : String) :
    strContains hay needle = true ↔ needle.data <:+: hay.data := by
  show hasSubstring needle.data hay.data = true ↔ _
  exact hasSubstring_iff _ _

/-- C9: a failed container build whose stderr contains (case-insensitively)
both "permission denied" and "docker.sock" is reported with the fixed
docker-group remediation message, never the raw stderr; every other failed
build is reported with the raw stderr. -/
theorem buildFailureClassified (e : String) :
    ((("permission denied" : String).data <:+: (pyLower e).data ∧
      ("docker.sock" : String).data <:+: (pyLower e).data) →
        classifyBuildFailure e = BuildFailureMsg.remediation) ∧
    ((¬ (("permission denied" : String).data <:+: (pyLower e).data ∧
         ("docker.sock" : String).data <:+: (pyLower e).data)) →
        classifyBuildFailure e = BuildFailureMsg.raw e) := by
  constructor
  · rintro ⟨h1, h2⟩
    have hb : (strContains (pyLower e) "permission denied"
        && strContains (pyLower e) "docker.sock") = true := by
      rw [Bool.and_eq_true]
      exact ⟨(strContains_iff _ _).mpr h1, (strContains_iff _ _).mpr h2⟩
    simp [classifyBuildFailure, hb]
  · intro h
    have hb : (strContains (pyLower e) "permission denied"
        && strContains (pyLower e) "docker.sock") = false := by
      cases hcb : (strContains (pyLower e) "permission denied"
          && strContains (pyLower e) "docker.sock") with
      | false => rfl
      | true =>
        rw [Bool.and_eq_true] at hcb
        exact absurd ⟨(strContains_iff _ _).mp hcb.1, (strContains_iff _ _).mp hcb.2⟩ h
    simp [classifyBuildFailure, hb]

/-- Witness for C9 at a concrete stderr. -/
theorem buildFailureClassified_witness :
    ((("permission denied" : String).data <:+:
        (pyLower "Got permission denied at unix docker.sock daemon").data ∧
      ("docker.sock" : String).data <:+:
        (pyLower "Got permission denied at unix docker.sock daemon").data) ∧
     classifyBuildFailure "Got permission denied at unix docker.sock daemon"
       = BuildFailureMsg.remediation) := by
  have h1 : ("permission denied" : String).data <:+:
      (pyLower "Got permission denied at unix docker.sock daemon").data :=
    (strContains_iff _ _).mp (by decide)
  have h2 : ("docker.sock" : String).data <:+:
      (pyLower "Got permission denied at unix docker.sock daemon").data :=
    (strContains_iff _ _).mp (by decide)
  exact ⟨⟨h1, h2⟩,
    (buildFailureClassified "Got permission denied at unix docker.sock daemon").1 ⟨h1, h2⟩⟩

/-- Unfolding `joinNl` at a cons with a non-empty tail. -/
theorem joinNl_cons (v : String) (L : List String) (h : L ≠ []) :
    joinNl (v :: L) = v ++ "\n" ++ joinNl L := by
  cases L with
  | nil => exact absurd rfl h
  | cons y ys => rw [joinNl]

/-- One marked element inside a joined command list, keeping the tail. -/
theorem joinNl_cons_decomp (p : List String) (a : String) (q : List String) (hq : q ≠ []) :
    ∃ x, joinNl (p ++ a :: q) = x ++ a ++ "\n" ++ joinNl q := by
  induction p with
  | nil =>
    refine ⟨"", ?_⟩
    rw [List.nil_append, joinNl_cons a q hq]
    simp [String.empty_append]
  | cons v p' ih =>
    obtain ⟨x', hx'⟩ := ih
    have hne : p' ++ a :: q ≠ [] := by
      cases p' <;> simp
    refine ⟨v ++ "\n" ++ x', ?_⟩
    rw [List.cons_append, joinNl_cons v _ hne, hx']
    simp [String.append_assoc]

/-- One marked element inside a joined command list. -/
theorem joinNl_mem_decomp (p : List String) (a : String) (q : List String) :
    ∃ x y, joinNl (p ++ a :: q) = x ++ a ++ y := by
  cases q with
  | nil =>
    induction p with
    | nil => exact ⟨"", "", by simp [joinNl, String.empty_append, String.append_empty]⟩
    | cons v p' ih =>
      obtain ⟨x, y, hxy⟩ := ih
      have hne : p' ++ [a] ≠ [] := by cases p' <;> simp
      refine ⟨v ++ "\n" ++ x, y, ?_⟩
      rw [List.cons_append, joinNl_cons v _ hne, hxy]
      simp [String.append_assoc]
  | cons b bs =>
    obtain ⟨x, hx⟩ := joinNl_cons_decomp p a (b :: bs) (by simp)
    exact ⟨x, "\n" ++ joinNl (b :: bs), by rw [hx]; simp [String.append_assoc]⟩

/-- With `requirements.txt` present, the placeholder branch is dead and the
command list is the three manifest groups followed by the framework step. -/
theorem installCommands_shape_of_req (m : RepoManifests) (hr : m.hasReqTxt = true) :
    installCommands m = reqSteps m ++ setupSteps m ++ pyprojectSteps m ++ [camelStep] := by
  have hb : reqSteps m ++ setupSteps m ++ pyprojectSteps m ≠ [] := by
    rw [reqSteps, if_pos hr]
    simp
  simp only [installCommands, if_neg hb]

/-- C6: with both `requirements.txt` and `pyproject.toml` present, the
generated Dockerfile has the requirements install steps, then the
pyproject (poetry) install steps, then the fixed camel-ai step, in that
order — as an order-preserving sublist of the command list, and as ordered
occurrences inside the emitted text. -/
theorem dockerfileBothManifests (m : RepoManifests)
    (hr : m.hasReqTxt = true) (hp : m.hasPyproject = true) :
    List.Sublist
      (["COPY requirements.txt .",
        "RUN pip install --no-cache-dir -r requirements.txt"] ++
       ["COPY pyproject.toml .", "COPY poetry.lock .",
        "RUN pip install --no-cache-dir poetry",
        "RUN poetry config virtualenvs.create false && poetry install --no-dev --no-interaction --no-ansi"] ++
       [camelStep])
      (installCommands m) ∧
    ∃ x y z w, generateDockerfile m =
      x ++ "RUN pip install --no-cache-dir -r requirements.txt" ++ y
        ++ "RUN poetry config virtualenvs.create false && poetry install --no-dev --no-interaction --no-ansi"
        ++ z ++ camelStep ++ w := by
  have hR : reqSteps m = ["COPY requirements.txt .",
      "RUN pip install --no-cache-dir -r requirements.txt"] := by
    rw [reqSteps, if_pos hr]
  have hP : pyprojectSteps m = ["COPY pyproject.toml .", "COPY poetry.lock .",
      "RUN pip install --no-cache-dir poetry",
      "RUN poetry config virtualenvs.create false && poetry install --no-dev --no-interaction --no-ansi"] := by
    rw [pyprojectSteps, if_pos hp]
  constructor
  · rw [installCommands_shape_of_req m hr, hR, hP]
    exact List.Sublist.append
      (List.Sublist.append (List.sublist_append_left _ _) (List.Sublist.refl _))
      (List.Sublist.refl _)
  · have hcmds : installCommands m =
        ["COPY requirements.txt ."] ++
          "RUN pip install --no-cache-dir -r requirements.txt" ::
            ((setupSteps m ++
               ["COPY pyproject.toml .", "COPY poetry.lock .",
                "RUN pip install --no-cache-dir poetry"]) ++
              "RUN poetry config virtualenvs.create false && poetry install --no-dev --no-interaction --no-ansi" ::
                [camelStep]) := by
      rw [installCommands_shape_of_req m hr, hR, hP]
      simp [List.append_assoc]
    obtain ⟨x1, h1⟩ := joinNl_cons_decomp ["COPY requirements.txt ."]
      "RUN pip install --no-cache-dir -r requirements.txt"
      ((setupSteps m ++
         ["COPY pyproject.toml .", "COPY poetry.lock .",
          "RUN pip install --no-cache-dir poetry"]) ++
        "RUN poetry config virtualenvs.create false && poetry install --no-dev --no-interaction --no-ansi" ::
          [camelStep]) (by simp)
    obtain ⟨x2, h2⟩ := joinNl_cons_decomp
      (setupSteps m ++
        ["COPY pyproject.toml .", "COPY poetry.lock .",
         "RUN pip install --no-cache-dir poetry"])
      "RUN poetry config virtualenvs.create false && poetry install --no-dev --no-interaction --no-ansi"
      [camelStep] (by simp)
    refine ⟨dockerHead ++ x1, "\n" ++ x2, "\n", dockerTail, ?_⟩
    rw [generateDockerfile, hcmds, h1, h2]
    simp only [joinNl, String.append_assoc]

/-- Witness for C6 at a concrete repository state. -/
theorem dockerfileBothManifests_witness :
    (RepoManifests.hasReqTxt ⟨true, false, true, false, false, false, false, "r"⟩ = true) ∧
    (RepoManifests.hasPyproject ⟨true, false, true, false, false, false, false, "r"⟩ = true) ∧
    (List.Sublist
      (["COPY requirements.txt .",
        "RUN pip install --no-cache-dir -r requirements.txt"] ++
       ["COPY pyproject.toml .", "COPY poetry.lock .",
        "RUN pip install --no-cache-dir poetry",
        "RUN poetry config virtualenvs.create false && poetry install --no-dev --no-interaction --no-ansi"] ++
       [camelStep])
      (installCommands ⟨true, false, true, false, false, false, false, "r"⟩) ∧
    ∃ x y z w, generateDockerfile ⟨true, false, true, false, false, false, false, "r"⟩ =
      x ++ "RUN pip install --no-cache-dir -r requirements.txt" ++ y
        ++ "RUN poetry config virtualenvs.create false && poetry install --no-dev --no-interaction --no-ansi"
        ++ z ++ camelStep ++ w) :=
  ⟨rfl, rfl, dockerfileBothManifests ⟨true, false, true, false, false, false, false, "r"⟩ rfl rfl⟩

/-- C7: Dockerfile synthesis is total and only degrades: the emitted text
always contains the camel-ai install step (pinned to `>=0.2.0,<0.3.0`),
and when no dependency manifest at all is present it contains the comment
placeholder instead of failing. -/
theorem dockerfileTotalDegrade (m : RepoManifests) :
    (∃ x y, generateDockerfile m = x ++ camelStep ++ y) ∧
    (∃ u v, camelStep = u ++ ">=0.2.0,<0.3.0" ++ v) ∧
    (m.hasReqTxt = false → m.hasSetupPy = false → m.hasPyproject = false →
      ∃ x y, generateDockerfile m = x ++ noDepsComment ++ y) := by
  refine ⟨?_, ⟨"RUN pip install --no-cache-dir 'camel-ai[web-tools]", "'", by decide⟩, ?_⟩
  · have hB : installCommands m =
        (if reqSteps m ++ setupSteps m ++ pyprojectSteps m = []
         then [noDepsComment]
         else reqSteps m ++ setupSteps m ++ pyprojectSteps m) ++ camelStep :: [] := rfl
    obtain ⟨x, y, hxy⟩ := joinNl_mem_decomp
      (if reqSteps m ++ setupSteps m ++ pyprojectSteps m = []
       then [noDepsComment]
       else reqSteps m ++ setupSteps m ++ pyprojectSteps m) camelStep []
    refine ⟨dockerHead ++ x, y ++ dockerTail, ?_⟩
    rw [generateDockerfile, hB, hxy]
    simp only [String.append_assoc]
  · intro h1 h2 h3
    have hcmds : installCommands m = [noDepsComment, camelStep] := by
      simp [installCommands, reqSteps, setupSteps, pyprojectSteps, h1, h2, h3]
    refine ⟨dockerHead, "\n" ++ camelStep ++ dockerTail, ?_⟩
    rw [generateDockerfile, hcmds]
    simp only [joinNl, String.append_assoc]

/-- Witness for C7 at a repository with no dependency manifest. -/
theorem dockerfileTotalDegrade_witness :
    (∃ x y, generateDockerfile ⟨false, false, false, false, false, false, false, "r"⟩
        = x ++ camelStep ++ y) ∧
    (∃ u v, camelStep = u ++ ">=0.2.0,<0.3.0" ++ v) ∧
    (∃ x y, generateDockerfile ⟨false, false, false, false, false, false, false, "r"⟩
        = x ++ noDepsComment ++ y) :=
  have h := dockerfileTotalDegrade ⟨false, false, false, false, false, false, false, "r"⟩
  ⟨h.1, h.2.1, h.2.2 rfl rfl rfl⟩

/-- C2 counterexample: a response that is not valid structured output but
does contain a bracketed fragment is resolved by the lenient tier, so the
Selector returns that parse — not the fixed default set. -/
theorem selectorLenientCounterexample :
    strictParse "I suggest [server.py] here" = none ∧
    selectEntryPoints "I suggest [server.py] here" = ["server.py"] ∧
    ["server.py"] ≠ defaultEntryPoints := by
  exact ⟨by decide, by decide, by decide⟩

/-- C2 (amended): when both the strict structured-list parse and the lenient
bracket split fail, the Selector returns the fixed default candidate set,
which is non-empty; being a total function it never raises on malformed
agent output. -/
theorem selectorDefaultFallback (r : String)
    (hs : strictParse r = none) (hl : lenientParse r = none) :
    selectEntryPoints r = defaultEntryPoints ∧ defaultEntryPoints ≠ [] := by
  constructor
  · simp only [selectEntryPoints, hs, hl]
  · decide

/-- Witness for the amended C2 at a concrete malformed response. -/
theorem selectorDefaultFallback_witness :
    strictParse "use the main module" = none ∧
    lenientParse "use the main module" = none ∧
    (selectEntryPoints "use the main module" = defaultEntryPoints ∧
     defaultEntryPoints ≠ []) :=
  ⟨by decide, by decide,
   selectorDefaultFallback "use the main module" (by decide) (by decide)⟩

/-- `add_content` preserves the context invariant (for a file that is in the
repository and whose header name is its path). -/
theorem addContent_inv (repo : RepoFiles) (st : CtxState) (fo : Option PyFile)
    (hn : String) (hinv : CtxInv repo st)
    (hfo : ∀ f, fo = some f → f ∈ repo.files ∧ f.path = hn) :
    CtxInv repo (addContent st fo hn).1 := by
  cases fo with
  | none => simpa [addContent] using hinv
  | some f =>
    obtain ⟨hmem, hpath⟩ := hfo f rfl
    obtain ⟨hlen, hbud, hjoin, hproc, hnd, hblocks⟩ := hinv
    by_cases hc : f.path ∈ st.processed
    · simpa [addContent, hc] using ⟨hlen, hbud, hjoin, hproc, hnd, hblocks⟩
    · by_cases hr : f.readable = false
      · simpa [addContent, hc, hr] using ⟨hlen, hbud, hjoin, hproc, hnd, hblocks⟩
      · by_cases hfit : st.totalChars + f.content.length + (ctxHeader hn).length
            ≤ MAX_CODE_CONTEXT_CHARS
        · have hres : (addContent st (some f) hn).1 =
              { codeContext := st.codeContext ++ ctxHeader hn ++ f.content,
                totalChars := st.totalChars + f.content.length + (ctxHeader hn).length,
                filesRead := st.filesRead + 1,
                processed := f.path :: st.processed,
                blocks := st.blocks ++ [(hn, f.content)] } := by
            simp [addContent, hc, hr, hfit]
          rw [hres]
          refine ⟨?_, hfit, ?_, ?_, List.Nodup.cons hc hnd, ?_⟩
          · simp only [String.length_append, hlen]
            omega
          · show st.codeContext ++ ctxHeader hn ++ f.content
              = joinBlocks (st.blocks ++ [(hn, f.content)])
            rw [joinBlocks, List.foldl_append, ← joinBlocks, ← hjoin]
            rfl
          · show f.path :: st.processed
              = (List.map Prod.fst (st.blocks ++ [(hn, f.content)])).reverse
            rw [List.map_append, List.reverse_append, hpath]
            simp [hproc]
          · intro b hb
            rcases List.mem_append.mp hb with h | h
            · exact hblocks b h
            · rcases List.mem_singleton.mp h with rfl
              exact ⟨f, hmem, by rw [hpath]⟩
        · simpa [addContent, hc, hr, hfit] using ⟨hlen, hbud, hjoin, hproc, hnd, hblocks⟩

/-- The priority-file pass preserves the context invariant. -/
theorem priorityLoop_inv (repo : RepoFiles) :
    ∀ (ns : List String) (st : CtxState),
      CtxInv repo st → CtxInv repo (priorityLoop repo st ns) := by
  intro ns
  induction ns with
  | nil => intro st h; simpa [priorityLoop] using h
  | cons n ns ih =>
    intro st h
    have hfo : ∀ f, findFile repo n = some f → f ∈ repo.files ∧ f.path = n := by
      intro f hf
      rw [findFile] at hf
      refine ⟨List.mem_of_find?_eq_some hf, ?_⟩
      have hp := List.find?_some hf
      simp only [] at hp
      exact eq_of_beq hp
    have hstep := addContent_inv repo st (findFile repo n) n h hfo
    rw [priorityLoop]
    cases hac : addContent st (findFile repo n) n with
    | mk st' b =>
      rw [hac] at hstep
      cases b
      · exact hstep
      · exact ih st' hstep

/-- The recursive `*.py` pass preserves the context invariant. -/
theorem rglobLoop_inv (repo : RepoFiles) :
    ∀ (fs : List PyFile) (st : CtxState),
      (∀ f ∈ fs, f ∈ repo.files) →
      CtxInv repo st → CtxInv repo (rglobLoop repo st fs) := by
  intro fs
  induction fs with
  | nil => intro st _ h; simpa [rglobLoop] using h
  | cons f fs ih =>
    intro st hsub h
    have hmem : f ∈ repo.files := hsub f (List.mem_cons_self f fs)
    have hsub' : ∀ g ∈ fs, g ∈ repo.files := fun g hg => hsub g (List.mem_cons_of_mem f hg)
    rw [rglobLoop]
    by_cases hg : isGitPath f.path = true
    · rw [if_pos hg]
      exact ih st hsub' h
    · rw [if_neg hg]
      by_cases hp : st.processed.contains f.path = true
      · rw [if_pos hp]
        exact ih st hsub' h
      · rw [if_neg hp]
        have hfo : ∀ g, (some f : Option PyFile) = some g → g ∈ repo.files ∧ g.path = g.path := by
          intro g hgf
          cases hgf
          exact ⟨hmem, rfl⟩
        have hstep := addContent_inv repo st (some f) f.path h
          (fun g hgf => by cases hgf; exact ⟨hmem, rfl⟩)
        cases hac : addContent st (some f) f.path with
        | mk st' b =>
          rw [hac] at hstep
          cases b
          · exact hstep
          · exact ih st' hsub' hstep

/-- `_get_code_context` establishes the context invariant from the empty
state. -/
theorem getCodeContext_inv (repo : RepoFiles) : CtxInv repo (getCodeContext repo) := by
  have h0 : CtxInv repo initCtxState := by
    refine ⟨rfl, by norm_num [MAX_CODE_CONTEXT_CHARS, initCtxState], rfl, rfl, ?_, ?_⟩
    · simp [initCtxState]
    · intro b hb
      simp [initCtxState] at hb
  have h1 := priorityLoop_inv repo priorityNames initCtxState h0
  rw [getCodeContext]
  by_cases hlt : (priorityLoop repo initCtxState priorityNames).totalChars
      < MAX_CODE_CONTEXT_CHARS
  · rw [if_pos hlt]
    exact rglobLoop_inv repo _ _ (fun f hf => (List.mem_filter.mp hf).1) h1
  · rw [if_neg hlt]
    exact h1

/-- C3: the Context Blob never exceeds `MAX_CODE_CONTEXT_CHARS`, and it is
exactly a concatenation of whole (header, content) blocks of repository
files — an over-budget file is excluded entirely, never embedded
partially. -/
theorem contextBlobBounded (repo : RepoFiles) :
    (getCodeContext repo).codeContext.length ≤ MAX_CODE_CONTEXT_CHARS ∧
    (getCodeContext repo).codeContext = joinBlocks (getCodeContext repo).blocks ∧
    (∀ b ∈ (getCodeContext repo).blocks, ∃ f ∈ repo.files, b = (f.path, f.content)) := by
  obtain ⟨hlen, hbud, hjoin, _, _, hblocks⟩ := getCodeContext_inv repo
  exact ⟨hlen ▸ hbud, hjoin, hblocks⟩

/-- C10: every file contributes at most one block to the Context Blob: the
header names (= paths) of the embedded blocks are pairwise distinct, so a
file taken by the priority pass is never re-embedded by the `*.py` pass. -/
theorem contextBlobNoDuplicates (repo : RepoFiles) :
    ((getCodeContext repo).blocks.map Prod.fst).Nodup := by
  obtain ⟨_, _, _, hproc, hnd, _⟩ := getCodeContext_inv repo
  rw [hproc] at hnd
  exact List.nodup_reverse.mp hnd

/-- C8: `cleanup` never propagates an exception to its caller, and when the
directory exists and every deletion attempt fails with a permission error,
it makes exactly 3 `rmtree` attempts with the fixed 1-second delay between
consecutive attempts (two sleeps), prints the retry warnings and the final
exhausted warning, and leaves the directory in place. -/
theorem cleanupRetryPolicy (tempDir : Option String) (exOnDisk : Bool)
    (outcomes : Nat → RmOutcome) :
    (cleanup tempDir exOnDisk outcomes).propagated = false ∧
    (∀ d, tempDir = some d → exOnDisk = true →
      (∀ k, k < 3 → isRetryable (outcomes k) = true) →
      (cleanup tempDir exOnDisk outcomes).attempts = 3 ∧
      (cleanup tempDir exOnDisk outcomes).sleeps = [1, 1] ∧
      (cleanup tempDir exOnDisk outcomes).events
        = [.retryWarning, .retryWarning, .exhaustedWarning] ∧
      (cleanup tempDir exOnDisk outcomes).removed = false ∧
      (cleanup tempDir exOnDisk outcomes).tempDirAfter = some d) := by
  constructor
  · cases tempDir with
    | none => rfl
    | some d =>
      by_cases he : exOnDisk = false
      · simp [cleanup, he]
      · by_cases hraised : (cleanupLoop outcomes 3 0 ⟨[], 0, [], false, false⟩).raised = true
        · simp [cleanup, he, hraised]
        · simp [cleanup, he, hraised]
  · rintro d rfl rfl hret
    have h0 := hret 0 (by norm_num)
    have h1 := hret 1 (by norm_num)
    have h2 := hret 2 (by norm_num)
    have hloop : cleanupLoop outcomes 3 0 ⟨[], 0, [], false, false⟩ =
        ⟨[.retryWarning, .retryWarning, .exhaustedWarning], 3, [1, 1], false, false⟩ := by
      cases ho0 : outcomes 0 <;> rw [ho0] at h0 <;> try exact absurd h0 (by decide)
      all_goals
        cases ho1 : outcomes 1 <;> rw [ho1] at h1 <;> try exact absurd h1 (by decide)
      all_goals
        cases ho2 : outcomes 2 <;> rw [ho2] at h2 <;> try exact absurd h2 (by decide)
      all_goals simp [cleanupLoop, ho0, ho1, ho2]
    simp [cleanup, hloop]

/-- Witness for C8: every attempt hits a `PermissionError`. -/
theorem cleanupRetryPolicy_witness :
    (cleanup (some "/tmp/coral_git_x") true (fun _ => RmOutcome.permErr)).propagated
        = false ∧
    ((cleanup (some "/tmp/coral_git_x") true (fun _ => RmOutcome.permErr)).attempts = 3 ∧
     (cleanup (some "/tmp/coral_git_x") true (fun _ => RmOutcome.permErr)).sleeps = [1, 1] ∧
     (cleanup (some "/tmp/coral_git_x") true (fun _ => RmOutcome.permErr)).events
       = [.retryWarning, .retryWarning, .exhaustedWarning] ∧
     (cleanup (some "/tmp/coral_git_x") true (fun _ => RmOutcome.permErr)).removed = false ∧
     (cleanup (some "/tmp/coral_git_x") true (fun _ => RmOutcome.permErr)).tempDirAfter
       = some "/tmp/coral_git_x") :=
  have h := cleanupRetryPolicy (some "/tmp/coral_git_x") true (fun _ => RmOutcome.permErr)
  ⟨h.1, h.2 "/tmp/coral_git_x" rfl rfl (fun _ _ => rfl)⟩

/-- When the file loop truncates, the text it returns is already over the
budget (the check runs only after appending the file line) and it ends
with the `...` marker line. -/
theorem filesLoop_trunc : ∀ (fs : List String) (lvl : Nat) (acc : String),
    (filesLoop lvl acc fs).2 = true →
    MAX_TREE_CHARS < (filesLoop lvl acc fs).1.length ∧
    ∃ u, (filesLoop lvl acc fs).1 = u ++ "...\n" := by
  intro fs
  induction fs with
  | nil => intro lvl acc h; simp [filesLoop] at h
  | cons f fs ih =>
    intro lvl acc h
    simp only [filesLoop] at h ⊢
    by_cases hc : MAX_TREE_CHARS < (acc ++ indentStr lvl ++ f ++ "\n").length
    · rw [if_pos hc] at h ⊢
      refine ⟨?_, acc ++ indentStr lvl ++ f ++ "\n" ++ indentStr lvl, rfl⟩
      simp only [String.length_append] at hc ⊢
      omega
    · rw [if_neg hc] at h ⊢
      exact ih lvl (acc ++ indentStr lvl ++ f ++ "\n") h

mutual

/-- When the walk of one directory truncates, the returned Structure
Summary exceeds the budget and ends with the marker. -/
theorem walkDir_trunc : ∀ (t : FsTree) (lvl : Nat) (acc : String),
    (walkDir lvl acc t).2 = true →
    MAX_TREE_CHARS < (walkDir lvl acc t).1.length ∧
    ∃ u, (walkDir lvl acc t).1 = u ++ "...\n"
  | .node nm files subs, lvl, acc, h => by
    simp only [walkDir] at h ⊢
    cases hf : filesLoop (lvl + 1) (acc ++ indentStr lvl ++ nm ++ "/\n") files with
    | mk acc2 flag =>
      cases flag with
      | true =>
        obtain ⟨h1, h2⟩ := filesLoop_trunc files (lvl + 1)
          (acc ++ indentStr lvl ++ nm ++ "/\n") (by rw [hf])
        rw [hf] at h1 h2
        exact ⟨h1, h2⟩
      | false =>
        rw [hf] at h
        exact walkForest_trunc subs lvl acc2 false h

/-- When the walk of a forest truncates, the returned Structure Summary
exceeds the budget and ends with the marker. -/
theorem walkForest_trunc : ∀ (f : FsForest) (lvl : Nat) (acc : String) (g : Bool),
    (walkForest lvl acc g f).2 = true →
    MAX_TREE_CHARS < (walkForest lvl acc g f).1.length ∧
    ∃ u, (walkForest lvl acc g f).1 = u ++ "...\n"
  | .nil, lvl, acc, g, h => by simp [walkForest] at h
  | .cons t ts, lvl, acc, g, h => by
    simp only [walkForest] at h ⊢
    by_cases hgit : (decide (g = false) && t.name == ".git") = true
    · rw [if_pos hgit] at h ⊢
      exact walkForest_trunc ts lvl acc true h
    · rw [if_neg hgit] at h ⊢
      cases hw : walkDir (lvl + 1) acc t with
      | mk acc' flag =>
        cases flag with
        | true =>
          obtain ⟨h1, h2⟩ := walkDir_trunc t (lvl + 1) acc (by rw [hw])
          rw [hw] at h1 h2
          exact ⟨h1, h2⟩
        | false =>
          rw [hw] at h
          exact walkForest_trunc ts lvl acc' g h

end

/-- The long file name has 2100 characters. -/
theorem exTreeBigName_len : exTreeBigName.length = 2100 := by
  show (String.mk (List.replicate 2100 'a')).length = 2100
  rw [String.length_mk, List.length_replicate]

/-- Evaluating the walk on `exTree`: the single file line blows past the
budget, so the marker is appended and the truncation flag is set. -/
theorem getFileTreeFull_exTree : getFileTreeFull exTree =
    ("" ++ indentStr 0 ++ "repo" ++ "/\n" ++ indentStr 1 ++ exTreeBigName ++ "\n"
       ++ indentStr 1 ++ "...\n", true) := by
  rw [getFileTreeFull]
  show walkDir 0 "" (.node "repo" [exTreeBigName] .nil) = _
  rw [walkDir]
  have h0 : (indentStr 0).length = 0 := rfl
  have h1 : (indentStr 1).length = 4 := rfl
  have hr : ("repo" : String).length = 4 := rfl
  have hn : ("\n" : String).length = 1 := rfl
  have hsl : ("/\n" : String).length = 2 := rfl
  have heq : filesLoop (0 + 1) ("" ++ indentStr 0 ++ "repo" ++ "/\n") [exTreeBigName] =
      ("" ++ indentStr 0 ++ "repo" ++ "/\n" ++ indentStr 1 ++ exTreeBigName ++ "\n"
        ++ indentStr 1 ++ "...\n", true) := by
    rw [filesLoop]
    have hcond : MAX_TREE_CHARS <
        ("" ++ indentStr 0 ++ "repo" ++ "/\n" ++ indentStr 1 ++ exTreeBigName ++ "\n").length := by
      rw [String.length_append, String.length_append, String.length_append,
          String.length_append, String.length_append, String.length_append]
      rw [h0, h1, hr, hn, hsl, exTreeBigName_len, MAX_TREE_CHARS]
      norm_num
    rw [if_pos hcond]
  rw [heq]

/-- C1 counterexample: on a repository whose single file name is 2100
characters long, `_get_file_tree` returns a Structure Summary of 2119
characters — the `MAX_TREE_CHARS = 2000` budget is exceeded, because each
file line is appended before the length check and the marker is appended
after the budget is already blown. -/
theorem fileTreeBudgetCounterexample :
    ¬ ((getFileTree exTree).length ≤ MAX_TREE_CHARS) := by
  have h0 : (indentStr 0).length = 0 := rfl
  have h1 : (indentStr 1).length = 4 := rfl
  have hr : ("repo" : String).length = 4 := rfl
  have hn : ("\n" : String).length = 1 := rfl
  have hsl : ("/\n" : String).length = 2 := rfl
  have hd : ("...\n" : String).length = 4 := rfl
  have hlen : (getFileTree exTree).length = 2119 := by
    rw [getFileTree, getFileTreeFull_exTree]
    show ("" ++ indentStr 0 ++ "repo" ++ "/\n" ++ indentStr 1 ++ exTreeBigName ++ "\n"
       ++ indentStr 1 ++ "...\n").length = 2119
    rw [String.length_append, String.length_append, String.length_append,
        String.length_append, String.length_append, String.length_append,
        String.length_append, String.length_append]
    rw [h0, h1, hr, hn, hsl, hd, exTreeBigName_len]
    norm_num [String.length_empty]
  rw [hlen, MAX_TREE_CHARS]
  norm_num

/-- C1 (amended): the Structure Summary can exceed `MAX_TREE_CHARS`
(directory lines are never checked, and each file line is appended before
the check), but whenever truncation is triggered the returned text ends
with the explicit `...` marker line — and is then itself strictly longer
than the budget. -/
theorem fileTreeTruncationMarker (t : FsTree)
    (h : (getFileTreeFull t).2 = true) :
    MAX_TREE_CHARS < (getFileTree t).length ∧
    ∃ u, getFileTree t = u ++ "...\n" :=
  walkDir_trunc t 0 "" h

/-- Witness for the amended C1: `exTree` triggers truncation. -/
theorem fileTreeTruncationMarker_witness :
    (getFileTreeFull exTree).2 = true ∧
    (MAX_TREE_CHARS < (getFileTree exTree).length ∧
     ∃ u, getFileTree exTree = u ++ "...\n") :=
  ⟨by rw [getFileTreeFull_exTree], fileTreeTruncationMarker exTree (by rw [getFileTreeFull_exTree])⟩

/-- A valid code point round-trips through `Char.ofNat`. -/
theorem charToNat_ofNat (n : Nat) (h : n.isValidChar) : (Char.ofNat n).toNat = n := by
  rw [Char.ofNat, dif_pos h]
  rfl

/-- Only the backtick lowercases to the backtick. -/
theorem toLower_eq_backtick (p : Char) (h : p.toLower = btChar) : p = btChar := by
  rw [Char.toLower] at h
  by_cases hc : p.toNat ≥ 65 ∧ p.toNat ≤ 90
  · rw [if_pos hc] at h
    have hv : (p.toNat + 32).isValidChar := by
      constructor
      omega
    have h2 := congrArg Char.toNat h
    rw [charToNat_ofNat _ hv] at h2
    have h96 : btChar.toNat = 96 := by decide
    rw [h96] at h2
    omega
  · rw [if_neg hc] at h
    exact h

/-- Case-insensitive comparison with a backtick only matches a backtick. -/
theorem lcEq_backtick (p : Char) (h : p ≠ btChar) : lcEq btChar p = false := by
  rw [lcEq]
  cases hb : btChar.toLower == p.toLower with
  | false => rfl
  | true =>
    have hbt : btChar.toLower = btChar := by decide
    rw [hbt] at hb
    have := toLower_eq_backtick p (eq_of_beq hb).symm
    exact absurd this h

/-- The first character a `dropWhile` keeps fails the predicate. -/
theorem dropWhile_head_false (p : Char → Bool) (l : List Char) (c : Char)
    (t : List Char) (h : l.dropWhile p = c :: t) : p c = false := by
  induction l with
  | nil => simp [List.dropWhile] at h
  | cons a as ih =>
    rw [List.dropWhile] at h
    cases hp : p a with
    | true => rw [hp] at h; exact ih h
    | false => rw [hp] at h; cases h; exact hp

/-- `dropWhile` keeps something when the list holds a failing element. -/
theorem dropWhile_ne_nil (p : Char → Bool) (l : List Char)
    (h : ∃ x ∈ l, p x = false) : l.dropWhile p ≠ [] := by
  induction l with
  | nil => simp at h
  | cons a as ih =>
    rw [List.dropWhile]
    cases hp : p a with
    | true =>
      obtain ⟨x, hx, hpx⟩ := h
      rcases List.mem_cons.mp hx with rfl | hx'
      · rw [hp] at hpx; cases hpx
      · exact ih ⟨x, hx', hpx⟩
    | false => simp

/-- `dropWhile` over an all-satisfying prefix lands on the first failing
character. -/
theorem dropWhile_all_append (p : Char → Bool) (u : List Char) (c : Char)
    (v : List Char) (hu : ∀ x ∈ u, p x = true) (hc : p c = false) :
    (u ++ c :: v).dropWhile p = c :: v := by
  induction u with
  | nil => simp [List.dropWhile, hc]
  | cons a as ih =>
    rw [List.cons_append, List.dropWhile, hu a (List.mem_cons_self a as)]
    exact ih (fun x hx => hu x (List.mem_cons_of_mem a hx))

/-- `takeWhile` over an all-satisfying prefix stops exactly at the first
failing character. -/
theorem takeWhile_all_append (p : Char → Bool) (u : List Char) (c : Char)
    (v : List Char) (hu : ∀ x ∈ u, p x = true) (hc : p c = false) :
    (u ++ c :: v).takeWhile p = u := by
  induction u with
  | nil => simp [List.takeWhile, hc]
  | cons a as ih =>
    rw [List.cons_append, List.takeWhile, hu a (List.mem_cons_self a as)]
    rw [ih (fun x hx => hu x (List.mem_cons_of_mem a hx))]

/-- `\s*``` ` succeeds on a whitespace run followed by the closing fence. -/
theorem wsThenClose_ws_fence (tws post : List Char)
    (htws : ∀ x ∈ tws, pyWS x = true) :
    wsThenClose (tws ++ (fenceCloseChars ++ post)) = true := by
  have hfc : fenceCloseChars ++ post = btChar :: (btChar :: btChar :: post) := by
    show ('`' :: '`' :: '`' :: []) ++ post = _
    simp
    decide
  have hbt : pyWS btChar = false := by decide
  rw [wsThenClose, hfc, dropWhile_all_append pyWS tws btChar _ htws hbt]
  show (('`' == btChar) && (('`' == btChar) && (('`' == btChar) && listIsPrefix [] post))) = true
  have : ('`' == btChar) = true := by decide
  rw [this, listIsPrefix]
  rfl

/-- `\s*``` ` fails while a non-whitespace, non-backtick character is still
ahead. -/
theorem wsThenClose_false (u v : List Char)
    (hx : ∃ x ∈ u, pyWS x = false) (hnb : ∀ x ∈ u, x ≠ btChar) :
    wsThenClose (u ++ v) = false := by
  induction u with
  | nil => simp at hx
  | cons a as ih =>
    cases hp : pyWS a with
    | true =>
      have hx' : ∃ x ∈ as, pyWS x = false := by
        obtain ⟨x, hxm, hpx⟩ := hx
        rcases List.mem_cons.mp hxm with rfl | hm
        · rw [hp] at hpx; cases hpx
        · exact ⟨x, hm, hpx⟩
      rw [wsThenClose, List.cons_append, List.dropWhile, hp]
      exact ih hx' (fun x hxm => hnb x (List.mem_cons_of_mem a hxm))
    | false =>
      rw [wsThenClose, List.cons_append, List.dropWhile, hp]
      have hne : a ≠ btChar := hnb a (List.mem_cons_self a as)
      have hbeq : ('`' == a) = false := by
        have : ('`' : Char) = btChar := by decide
        rw [this]
        exact beq_eq_false_iff_ne.mpr (fun he => hne he.symm)
      show listIsPrefix fenceCloseChars (a :: (as ++ v)) = false
      show (('`' == a) && listIsPrefix ['`', '`'] (as ++ v)) = false
      rw [hbeq]
      rfl

/-- The lazy group stops exactly at the last non-whitespace character before
a successful `\s*``` `. -/
theorem lazyGroup_exact (core' : List Char) (d : Char) (v : List Char)
    (hnb : ∀ x ∈ core' ++ [d], x ≠ btChar) (hd : pyWS d = false)
    (hv : wsThenClose v = true) :
    lazyGroup (core' ++ [d] ++ v) = some (core' ++ [d]) := by
  induction core' with
  | nil =>
    show lazyGroup (d :: v) = some [d]
    rw [lazyGroup, if_pos hv]
  | cons c cs ih =>
    have hfalse : wsThenClose ((cs ++ [d]) ++ v) = false :=
      wsThenClose_false (cs ++ [d]) v
        ⟨d, by simp, hd⟩
        (fun x hx => hnb x (List.mem_cons_of_mem c (by simpa using hx)))
    show lazyGroup (c :: (cs ++ [d] ++ v)) = some (c :: (cs ++ [d]))
    rw [lazyGroup]
    rw [if_neg (by simpa using hfalse)]
    rw [ih (fun x hx => hnb x (List.mem_cons_of_mem c hx))]

/-- The greedy-first-`\s*` search returns whatever the lazy group finds at
the initial offset. -/
theorem tryOpenWs_of_some (w : Nat) (r : List Char) (g : List Char)
    (h : lazyGroup (r.drop w) = some g) : tryOpenWs w r = some g := by
  cases w with
  | zero => rw [tryOpenWs]; simpa using h
  | succ w => rw [tryOpenWs, h]

/-- At the start of `body ++ "```" ++ post` (with `body` backtick-free and
not all whitespace), the tail of the pattern matches and the group is
exactly `body` stripped of surrounding whitespace. -/
theorem tailMatch_fenced (body post : List Char)
    (hnb : ∀ x ∈ body, x ≠ btChar) (hnws : ∃ c ∈ body, pyWS c = false) :
    tailMatch (body ++ (fenceCloseChars ++ post)) = some (stripChars body) := by
  have hsplit : body.takeWhile pyWS ++ body.dropWhile pyWS = body :=
    List.takeWhile_append_dropWhile pyWS body
  have hlws_ws : ∀ x ∈ body.takeWhile pyWS, pyWS x = true :=
    fun x hx => List.mem_takeWhile_imp hx
  have hmid_ne : body.dropWhile pyWS ≠ [] := dropWhile_ne_nil pyWS body hnws
  obtain ⟨c0, mid', hmid_eq⟩ := List.exists_cons_of_ne_nil hmid_ne
  have hc0 : pyWS c0 = false := dropWhile_head_false pyWS body c0 mid' hmid_eq
  have hrev_ne : (body.dropWhile pyWS).reverse.dropWhile pyWS ≠ [] := by
    apply dropWhile_ne_nil
    refine ⟨c0, ?_, hc0⟩
    rw [List.mem_reverse, hmid_eq]
    exact List.mem_cons_self _ _
  obtain ⟨d, t, hdt⟩ := List.exists_cons_of_ne_nil hrev_ne
  have hd : pyWS d = false := dropWhile_head_false pyWS _ d t hdt
  have hstrip : stripChars body = t.reverse ++ [d] := by
    rw [stripChars, hdt, List.reverse_cons]
  have hmid_split : body.dropWhile pyWS
      = (t.reverse ++ [d]) ++ ((body.dropWhile pyWS).reverse.takeWhile pyWS).reverse := by
    have h1 : (body.dropWhile pyWS).reverse.takeWhile pyWS
        ++ (body.dropWhile pyWS).reverse.dropWhile pyWS
        = (body.dropWhile pyWS).reverse := List.takeWhile_append_dropWhile pyWS _
    have h2 := congrArg List.reverse h1
    rw [List.reverse_append, List.reverse_reverse, hdt, List.reverse_cons] at h2
    exact h2.symm
  have htws_ws : ∀ x ∈ ((body.dropWhile pyWS).reverse.takeWhile pyWS).reverse,
      pyWS x = true :=
    fun x hx => List.mem_takeWhile_imp (List.mem_reverse.mp hx)
  have hcore_nb : ∀ x ∈ t.reverse ++ [d], x ≠ btChar := by
    intro x hx
    apply hnb
    rw [← hsplit]
    apply List.mem_append_right
    rw [hmid_split]
    exact List.mem_append_left _ hx
  obtain ⟨e, core2, hcore_eq⟩ : ∃ e core2, t.reverse ++ [d] = e :: core2 := by
    cases htr : t.reverse with
    | nil => exact ⟨d, [], by simp⟩
    | cons a b => exact ⟨a, b ++ [d], by simp⟩
  have he : pyWS e = false := by
    have hm : body.dropWhile pyWS
        = e :: (core2 ++ ((body.dropWhile pyWS).reverse.takeWhile pyWS).reverse) := by
      conv_lhs => rw [hmid_split, hcore_eq, List.cons_append]
    rw [hmid_eq] at hm
    injection hm with h1 _
    rw [← h1]
    exact hc0
  have hshape : body ++ (fenceCloseChars ++ post)
      = body.takeWhile pyWS
        ++ (e :: (core2 ++ (((body.dropWhile pyWS).reverse.takeWhile pyWS).reverse
            ++ (fenceCloseChars ++ post)))) := by
    conv_lhs => rw [← hsplit, hmid_split, hcore_eq]
    simp [List.append_assoc]
  have htake : (body ++ (fenceCloseChars ++ post)).takeWhile pyWS
      = body.takeWhile pyWS := by
    rw [hshape]
    exact takeWhile_all_append pyWS _ e _ hlws_ws he
  have hshape2 : body ++ (fenceCloseChars ++ post)
      = body.takeWhile pyWS
        ++ ((t.reverse ++ [d]) ++ (((body.dropWhile pyWS).reverse.takeWhile pyWS).reverse
            ++ (fenceCloseChars ++ post))) := by
    conv_lhs => rw [← hsplit, hmid_split]
    simp [List.append_assoc]
  have hdrop : (body ++ (fenceCloseChars ++ post)).drop (body.takeWhile pyWS).length
      = (t.reverse ++ [d]) ++ (((body.dropWhile pyWS).reverse.takeWhile pyWS).reverse
          ++ (fenceCloseChars ++ post)) := by
    rw [hshape2, List.drop_left]
  have hv : wsThenClose (((body.dropWhile pyWS).reverse.takeWhile pyWS).reverse
      ++ (fenceCloseChars ++ post)) = true :=
    wsThenClose_ws_fence _ post htws_ws
  have hlg : lazyGroup ((body ++ (fenceCloseChars ++ post)).drop
      (body.takeWhile pyWS).length) = some (t.reverse ++ [d]) := by
    rw [hdrop]
    exact lazyGroup_exact t.reverse d _ hcore_nb hd hv
  rw [tailMatch, htake, hstrip]
  exact tryOpenWs_of_some _ _ _ hlg

/-- `dropWhile` is idempotent. -/
theorem dropWhile_idem (p : Char → Bool) (l : List Char) :
    (l.dropWhile p).dropWhile p = l.dropWhile p := by
  cases hD : l.dropWhile p with
  | nil => rfl
  | cons d t =>
    have hd := dropWhile_head_false p l d t hD
    rw [List.dropWhile, hd]

/-- A stripped string has no leading whitespace left. -/
theorem stripChars_head_keep (l : List Char) :
    (stripChars l).dropWhile pyWS = stripChars l := by
  cases hM : l.dropWhile pyWS with
  | nil => rw [stripChars, hM]; rfl
  | cons c0 m =>
    have hc0 : pyWS c0 = false := dropWhile_head_false pyWS l c0 m hM
    cases hD : ((c0 :: m).reverse).dropWhile pyWS with
    | nil => rw [stripChars, hM, hD]; rfl
    | cons d t =>
      obtain ⟨w, hw⟩ := List.dropWhile_suffix (l := (c0 :: m).reverse) pyWS
      rw [hD] at hw
      have hlastX : ((c0 :: m).reverse).getLast? = some c0 := by
        have h1 := List.head?_reverse ((c0 :: m).reverse)
        rw [List.reverse_reverse] at h1
        rw [← h1]
        rfl
      have hlastD : (d :: t).getLast? = some c0 := by
        have h2 := congrArg List.getLast? hw.symm
        rw [List.getLast?_append, hlastX] at h2
        rw [List.getLast?_eq_getLast (d :: t) (List.cons_ne_nil d t)] at h2 ⊢
        have h3 : (some ((d :: t).getLast (List.cons_ne_nil d t))).or w.getLast?
            = some ((d :: t).getLast (List.cons_ne_nil d t)) := rfl
        rw [h3] at h2
        exact h2.symm
      have hhead : ((d :: t).reverse).head? = some c0 := by
        rw [List.head?_reverse]
        exact hlastD
      cases hR : (d :: t).reverse with
      | nil => simp at hR
      | cons a r =>
        have ha : a = c0 := by
          rw [hR] at hhead
          injection hhead
        rw [stripChars, hM, hD, hR, List.dropWhile, ha, hc0]

/-- Python's `strip` is idempotent. -/
theorem stripChars_idem (l : List Char) : stripChars (stripChars l) = stripChars l := by
  have hB : ((stripChars l).reverse).dropWhile pyWS = (stripChars l).reverse := by
    rw [stripChars, List.reverse_reverse]
    exact dropWhile_idem pyWS _
  rw [stripChars, stripChars_head_keep l, hB, List.reverse_reverse]

/-- A literal matches itself case-insensitively at the front of any
extension. -/
theorem ciIsPrefix_self_append (p l : List Char) : ciIsPrefix p (p ++ l) = true := by
  induction p with
  | nil => rfl
  | cons c cs ih =>
    rw [List.cons_append, ciIsPrefix, ih]
    simp [lcEq]

/-- The opening literal cannot match at a non-backtick character. -/
theorem ciIsPrefix_fence_false (c : Char) (l : List Char) (h : c ≠ btChar) :
    ciIsPrefix fenceOpenChars (c :: l) = false := by
  have hfo : fenceOpenChars = btChar :: ('`' :: '`' :: "python".data) := by decide
  rw [hfo, ciIsPrefix, lcEq_backtick c h]
  rfl

/-- `re.search` skips any backtick-free prefix of the input. -/
theorem reSearchFence_skip (pre l : List Char) (hpre : ∀ c ∈ pre, c ≠ btChar) :
    reSearchFence (pre ++ l) = reSearchFence l := by
  induction pre with
  | nil => rfl
  | cons p ps ih =>
    have hp : p ≠ btChar := hpre p (List.mem_cons_self _ _)
    rw [List.cons_append, reSearchFence, matchFenceAt,
      if_neg (by simp [ciIsPrefix_fence_false p _ hp])]
    exact ih (fun c hc => hpre c (List.mem_cons_of_mem p hc))

/-- The whole pattern matches at the opening literal, via the tail match. -/
theorem matchFenceAt_fence (X : List Char) :
    matchFenceAt (fenceOpenChars ++ X) = tailMatch X := by
  rw [matchFenceAt, if_pos (ciIsPrefix_self_append fenceOpenChars X), List.drop_left]

/-- `re.search` on a well-fenced response finds exactly the stripped body. -/
theorem reSearchFence_fenced (pre body post : List Char)
    (hpre : ∀ c ∈ pre, c ≠ btChar)
    (hnb : ∀ x ∈ body, x ≠ btChar)
    (hnws : ∃ c ∈ body, pyWS c = false) :
    reSearchFence (pre ++ (fenceOpenChars ++ (body ++ (fenceCloseChars ++ post))))
      = some (stripChars body) := by
  rw [reSearchFence_skip pre _ hpre]
  have hcons : fenceOpenChars ++ (body ++ (fenceCloseChars ++ post))
      = '`' :: ('`' :: '`' :: "python".data ++ (body ++ (fenceCloseChars ++ post))) := by
    have hfo : fenceOpenChars = '`' :: ('`' :: '`' :: "python".data) := by decide
    rw [hfo, List.cons_append]
  rw [hcons, reSearchFence, ← hcons,
    matchFenceAt_fence, tailMatch_fenced body post hnb hnws]

/-- C4: for a response built as prose, a properly fenced ```python block,
and trailing prose (prose and interior free of backticks, interior not all
whitespace), `_parse_generated_code` returns exactly the interior of the
fenced block with surrounding whitespace stripped — none of the prose ever
reaches the returned text. -/
theorem parseFencedBlockExact (pre body post : List Char)
    (hpre : ∀ c ∈ pre, c ≠ btChar)
    (hnb : ∀ x ∈ body, x ≠ btChar)
    (hnws : ∃ c ∈ body, pyWS c = false) :
    (parseGeneratedCode (String.mk
        (pre ++ (fenceOpenChars ++ (body ++ (fenceCloseChars ++ post)))))).1
      = some (String.mk (stripChars body)) := by
  have hdata : (String.mk
      (pre ++ (fenceOpenChars ++ (body ++ (fenceCloseChars ++ post))))).data
      = pre ++ (fenceOpenChars ++ (body ++ (fenceCloseChars ++ post))) := rfl
  rw [parseGeneratedCode, hdata, reSearchFence_fenced pre body post hpre hnb hnws]
  show some (pyStrip (String.mk (stripChars body))) = some (String.mk (stripChars body))
  rw [pyStrip]
  show some (String.mk (stripChars (stripChars body))) = some (String.mk (stripChars body))
  rw [stripChars_idem]

/-- Witness for C4 at a concrete agent response. -/
theorem parseFencedBlockExact_witness :
    (∀ c ∈ ("Sure:\n" : String).data, c ≠ btChar) ∧
    (∀ c ∈ ("\nprint(1)\n" : String).data, c ≠ btChar) ∧
    (∃ c ∈ ("\nprint(1)\n" : String).data, pyWS c = false) ∧
    (parseGeneratedCode (String.mk (("Sure:\n" : String).data ++ (fenceOpenChars
        ++ (("\nprint(1)\n" : String).data ++ (fenceCloseChars
          ++ ("\nBye." : String).data)))))).1
      = some (String.mk (stripChars ("\nprint(1)\n" : String).data)) :=
  ⟨by decide, by decide, by decide,
   parseFencedBlockExact _ _ _ (by decide) (by decide) (by decide)⟩

/-- With no possible match start anywhere, `re.search` fails. -/
theorem reSearchFence_none (l : List Char)
    (h : ∀ i : Nat, ciIsPrefix fenceOpenChars (l.drop i) = false) :
    reSearchFence l = none := by
  induction l with
  | nil => rfl
  | cons c cs ih =>
    have h0 : ciIsPrefix fenceOpenChars (c :: cs) = false := by
      have := h 0
      simpa using this
    rw [reSearchFence, matchFenceAt, if_neg (by simp [h0])]
    exact ih (fun i => by have := h (i + 1); rwa [List.drop_succ_cons] at this)

/-- A backtick-free text offers no match start for the opening literal. -/
theorem no_backtick_no_fence (l : List Char) (h : ∀ c ∈ l, c ≠ btChar) :
    ∀ i, ciIsPrefix fenceOpenChars (l.drop i) = false := by
  intro i
  cases hd : l.drop i with
  | nil => decide
  | cons a as =>
    have ha : a ∈ l := by
      have : a ∈ l.drop i := by rw [hd]; exact List.mem_cons_self _ _
      exact List.mem_of_mem_drop this
    exact ciIsPrefix_fence_false a as (h a ha)

/-- C5: for a response with no position where the ```python fence can
match and without both structural markers ("import asyncio" and
"MCPToolkit"), `_parse_generated_code` returns `None` — never an empty
string — and prints the full raw response among its diagnostics. -/
theorem parseNoFenceFails (r : String)
    (hfence : ∀ i : Nat, ciIsPrefix fenceOpenChars (r.data.drop i) = false)
    (hmark : ¬ (("import asyncio" : String).data <:+: r.data ∧
                ("MCPToolkit" : String).data <:+: r.data)) :
    (parseGeneratedCode r).1 = none ∧ r ∈ (parseGeneratedCode r).2 := by
  have hsearch : reSearchFence r.data = none := reSearchFence_none r.data hfence
  have hb : (strContains r "import asyncio" && strContains r "MCPToolkit") = false := by
    cases hcb : (strContains r "import asyncio" && strContains r "MCPToolkit") with
    | false => rfl
    | true =>
      rw [Bool.and_eq_true] at hcb
      exact absurd ⟨(strContains_iff _ _).mp hcb.1, (strContains_iff _ _).mp hcb.2⟩ hmark
  constructor <;> simp [parseGeneratedCode, hsearch, hb]

/-- Witness for C5 at a concrete markerless, fence-free response. -/
theorem parseNoFenceFails_witness :
    (∀ c ∈ ("I cannot generate that." : String).data, c ≠ btChar) ∧
    ((parseGeneratedCode "I cannot generate that.").1 = none ∧
     ("I cannot generate that." : String) ∈ (parseGeneratedCode "I cannot generate that.").2) :=
  ⟨by decide,
   parseNoFenceFails "I cannot generate that."
     (no_backtick_no_fence _ (by decide))
     (fun hmk => absurd ((strContains_iff _ _).mpr hmk.1) (by decide))⟩
